import Mathlib

/-!
# Access Code Ledger — shallow embedding

A shallow embedding of the access-code ledger in
`site-visit-report-app/backend/access_management.py`, together with proofs of
the specified properties of its operations.

Modelling conventions:

* Timestamps (the module stores ISO strings and re-parses them with
  `parse_datetime`) are modelled as already-parsed instants on an integer
  timeline whose unit is one day, so `timedelta(days=d)` is `+ d`.
  `yearOf` models the `.year` accessor of a parsed datetime on this timeline.
* The JSON code table and log table (Python dicts, insertion-ordered) are
  modelled as association lists; `dictInsert` models `d[k] = v` (overwrite in
  place if the key exists, append otherwise) and `setKey` models in-place
  mutation of the record stored under an existing key.
* Loading and saving the tables is modelled by passing the table in and
  returning the (to-be-persisted) table out; persistence is assumed to
  succeed, matching the success path of `_save_access_codes`.
* `datetime.now()` at operation start is the explicit `current_time`
  argument; the generated random code of `_generate_access_code` and the
  `uuid4` log id of `_log_access` are explicit arguments.
* Python `str.strip()` / `str.upper()` are `pyStrip` / `pyUpper` on the
  character sequence of the string.
* Log entries are loaded from JSON, so the three free-text fields a filter
  can mention may be absent from a stored entry; they are `Option`-valued.
-/

namespace AccessManagement

/-- Instants on a one-day-unit integer timeline (days since 1970-01-01). -/
abbrev Timestamp := Int

/-- Model of the `.year` accessor of a parsed datetime on the day timeline. -/
def yearOf (t : Timestamp) : Int := 1970 + t / 365

/-- The fixed fallback reference instant `"2025-05-22T12:00:00"` that the
module substitutes for the wall clock when the table holds far-future
expiries (day count of 2025-05-22 on the model timeline). -/
def testReferenceTime : Timestamp := 20230

/-- A permission set, the value type of the `ACCESS_LEVELS` table. -/
structure Permissions where
  can_upload_images : Bool
  can_generate_reports : Bool
  can_access_admin : Bool
  can_modify_data : Bool
deriving DecidableEq, Repr, Inhabited

/-- The fixed `ACCESS_LEVELS` table mapping each recognized level to its
static permission set. -/
def ACCESS_LEVELS : List (String × Permissions) :=
  [("standard",
    { can_upload_images := true, can_generate_reports := true,
      can_access_admin := false, can_modify_data := false }),
   ("admin",
    { can_upload_images := true, can_generate_reports := true,
      can_access_admin := true, can_modify_data := true }),
   ("read_only",
    { can_upload_images := false, can_generate_reports := false,
      can_access_admin := false, can_modify_data := false })]

/-- One access-code record (the value stored under a code string in the
code table). -/
structure CodeData where
  assigned_to : String
  email : String
  created_at : Timestamp
  expires_at : Timestamp
  is_valid : Bool
  uses_remaining : Int
  last_used : Option Timestamp
  notes : String
  access_level : String
deriving DecidableEq, Repr

/-- The code table: a dict from code string to record. -/
abbrev CodeTable := List (String × CodeData)

/-- One access-log record.  Entries written by `_log_access` always carry all
four fields; entries loaded from the JSON file may in principle lack the
string fields, so those are optional. `timestamp` is always present (the
sort in `get_access_logs` reads it unconditionally). -/
structure LogEntry where
  access_code : Option String
  user : Option String
  action : Option String
  timestamp : Timestamp
deriving DecidableEq, Repr

/-- The log table: a dict from generated log id to entry. -/
abbrev LogTable := List (String × LogEntry)

/-- In-place mutation of the record stored under key `k` of a dict. -/
def setKey (k : String) (v : α) (l : List (String × α)) : List (String × α) :=
  l.map fun p => if p.1 = k then (k, v) else p

/-- Python dict assignment `d[k] = v`: overwrite in place when `k` is
present, append otherwise. -/
def dictInsert (k : String) (v : α) (l : List (String × α)) : List (String × α) :=
  if (l.lookup k).isSome then setKey k v l else l ++ [(k, v)]

/-- Python `str.strip()`: drop leading and trailing whitespace. -/
def pyStrip (s : String) : String :=
  ⟨((s.data.dropWhile Char.isWhitespace).reverse.dropWhile Char.isWhitespace).reverse⟩

/-- Python `str.upper()` on the alphabet in play. -/
def pyUpper (s : String) : String :=
  ⟨s.data.map Char.toUpper⟩

/-- The code normalization `access_code.strip().upper()` applied before every
lookup. -/
def normalizeCode (s : String) : String := pyUpper (pyStrip s)

/-- The far-future-expiry scan shared by `create_access_code`,
`validate_access_code`, `_log_access` and `list_access_codes`: some record's
`expires_at` is more than a year past the wall clock. -/
def hasFutureDates (codes : CodeTable) (current_time : Timestamp) : Bool :=
  codes.any fun p => decide (yearOf p.2.expires_at > yearOf current_time + 1)

/-- The reference time an operation uses for all its comparisons: the fixed
test instant when the table holds far-future expiries, the wall clock
otherwise. -/
def referenceTime (codes : CodeTable) (current_time : Timestamp) : Timestamp :=
  if hasFutureDates codes current_time then testReferenceTime else current_time

/-- `create_access_code`: validate the level, build the record with
`expires_at = reference time + expiry_days`, insert under the generated
code.  `generated_code` stands for the fresh output of
`_generate_access_code`, `current_time` for `datetime.now()`. -/
def create_access_code (assigned_to email : String) (expiry_days uses : Int)
    (notes access_level : String) (codes : CodeTable)
    (generated_code : String) (current_time : Timestamp) :
    Option String × CodeTable :=
  if (ACCESS_LEVELS.lookup access_level).isNone then
    (none, codes)
  else
    let reference_time := referenceTime codes current_time
    let expiry_time := reference_time + expiry_days
    let code_data : CodeData :=
      { assigned_to := assigned_to, email := email,
        created_at := reference_time, expires_at := expiry_time,
        is_valid := true, uses_remaining := uses, last_used := none,
        notes := notes, access_level := access_level }
    (some generated_code, dictInsert generated_code code_data codes)

/-- The result dictionary of `validate_access_code`; the extra fields are
present only on success. -/
structure ValidationResult where
  valid : Bool
  message : String
  user_name : Option String := none
  access_level : Option String := none
  permissions : Option Permissions := none
  expires_at : Option Timestamp := none
  uses_remaining : Option Int := none
deriving DecidableEq, Repr

/-- `_log_access`: append one entry to the log table under the fresh
`log_id` (a `uuid4` in the source), timestamped with the reference time
recomputed from the (already saved) code table. -/
def log_access (access_code user action : String) (codes : CodeTable)
    (logs : LogTable) (current_time : Timestamp) (log_id : String) : LogTable :=
  let reference_time := referenceTime codes current_time
  dictInsert log_id
    { access_code := some access_code, user := some user,
      action := some action, timestamp := reference_time } logs

/-- `validate_access_code`: normalize, look up, and check disabled /
expired / depleted in that order; on the expired path auto-disable the
record; on success decrement `uses_remaining`, set `last_used`, log the
event and return the permission set of the record's level (defaulting to
`standard`).  Returns the result plus the persisted tables. -/
def validate_access_code (access_code : String) (codes : CodeTable)
    (logs : LogTable) (current_time : Timestamp) (log_id : String) :
    ValidationResult × CodeTable × LogTable :=
  let code := normalizeCode access_code
  match codes.lookup code with
  | none => ({ valid := false, message := "Invalid access code" }, codes, logs)
  | some code_data =>
    if code_data.is_valid = false then
      ({ valid := false, message := "Access code has been disabled" }, codes, logs)
    else
      let reference_time := referenceTime codes current_time
      if code_data.expires_at < reference_time then
        let codes' := setKey code { code_data with is_valid := false } codes
        ({ valid := false, message := "Access code has expired" }, codes', logs)
      else if code_data.uses_remaining ≤ 0 then
        ({ valid := false, message := "Access code has no remaining uses" }, codes, logs)
      else
        let code_data' := { code_data with
          last_used := some reference_time,
          uses_remaining := code_data.uses_remaining - 1 }
        let codes' := setKey code code_data' codes
        let logs' := log_access code code_data.assigned_to "login" codes' logs
          current_time log_id
        let permissions :=
          (ACCESS_LEVELS.lookup code_data.access_level).getD
            ((ACCESS_LEVELS.lookup "standard").getD default)
        ({ valid := true, message := "Access code validated successfully",
           user_name := some code_data.assigned_to,
           access_level := some code_data.access_level,
           permissions := some permissions,
           expires_at := some code_data.expires_at,
           uses_remaining := some code_data'.uses_remaining }, codes', logs')

/-- One output row of `list_access_codes`: the record's fields plus the code
string and the derived status label. -/
structure CodeInfo extends CodeData where
  code : String
  status : String
deriving DecidableEq, Repr

/-- The status derivation of `list_access_codes`: disabled, else expired,
else depleted, else active. -/
def codeStatus (data : CodeData) (reference_time : Timestamp) : String :=
  if data.is_valid = false then "disabled"
  else if data.expires_at < reference_time then "expired"
  else if data.uses_remaining ≤ 0 then "depleted"
  else "active"

/-- `list_access_codes`: one output row per record, in table order, carrying
the derived status. -/
def list_access_codes (codes : CodeTable) (current_time : Timestamp) :
    List CodeInfo :=
  let reference_time := referenceTime codes current_time
  codes.map fun p =>
    { toCodeData := p.2, code := p.1, status := codeStatus p.2 reference_time }

/-- `disable_access_code`: normalize, look up, set `is_valid := false`. -/
def disable_access_code (access_code : String) (codes : CodeTable) :
    Bool × CodeTable :=
  let code := normalizeCode access_code
  match codes.lookup code with
  | none => (false, codes)
  | some code_data =>
    (true, setKey code { code_data with is_valid := false } codes)

/-- The `updates` dictionary of `update_access_code`, restricted to the
allow-listed fields (keys outside the allow-list are silently ignored by
the source, which this representation makes inexpressible). -/
structure CodeUpdates where
  assigned_to : Option String := none
  email : Option String := none
  expires_at : Option Timestamp := none
  is_valid : Option Bool := none
  uses_remaining : Option Int := none
  notes : Option String := none
  access_level : Option String := none
deriving DecidableEq, Repr

/-- Apply every supplied allow-listed field to a record. -/
def applyUpdates (d : CodeData) (u : CodeUpdates) : CodeData :=
  { d with
    assigned_to := u.assigned_to.getD d.assigned_to,
    email := u.email.getD d.email,
    expires_at := u.expires_at.getD d.expires_at,
    is_valid := u.is_valid.getD d.is_valid,
    uses_remaining := u.uses_remaining.getD d.uses_remaining,
    notes := u.notes.getD d.notes,
    access_level := u.access_level.getD d.access_level }

/-- `update_access_code`: normalize, look up, apply the supplied
allow-listed fields with no validation of the new values. -/
def update_access_code (access_code : String) (u : CodeUpdates)
    (codes : CodeTable) : Bool × CodeTable :=
  let code := normalizeCode access_code
  match codes.lookup code with
  | none => (false, codes)
  | some code_data => (true, setKey code (applyUpdates code_data u) codes)

/-- A filter dictionary for `get_access_logs` over the recognized
free-text fields. -/
structure LogFilters where
  access_code : Option String := none
  user : Option String := none
  action : Option String := none
deriving DecidableEq, Repr

/-- One output row of `get_access_logs`: the entry's fields plus its id. -/
structure FormattedLog extends LogEntry where
  id : String
deriving DecidableEq, Repr

/-- One filter key against one entry, following
`if key in log_entry and log_entry[key] != value: match = False`:
the entry fails only when it has the field and the value differs. -/
def fieldPasses (filter_value : Option String) (field : Option String) : Bool :=
  match filter_value, field with
  | some v, some w => w == v
  | some _, none => true
  | none, _ => true

/-- The conjunction of the supplied filters against one formatted entry. -/
def matchesFilters (f : LogFilters) (e : FormattedLog) : Bool :=
  fieldPasses f.access_code e.access_code &&
  fieldPasses f.user e.user &&
  fieldPasses f.action e.action

/-- The `if filters: ...` guard of `get_access_logs`: with no filter
dictionary every entry is kept, otherwise the supplied filters are
applied. -/
def filterPasses (filters : Option LogFilters) (e : FormattedLog) : Bool :=
  match filters with
  | none => true
  | some f => matchesFilters f e

/-- `get_access_logs`: format each entry with its id, keep those matching
every supplied filter, and sort by parsed timestamp, newest first
(`sorted(..., reverse=True)` on a stable sort). -/
def get_access_logs (filters : Option LogFilters) (logs : LogTable) :
    List FormattedLog :=
  let formatted := (logs.map fun p => ({ toLogEntry := p.2, id := p.1 } : FormattedLog)).filter
    (filterPasses filters)
  List.insertionSort (fun a b => b.timestamp ≤ a.timestamp) formatted

/-- The ledger operations that touch the persisted tables, for stating
properties quantified over "any ledger operation". -/
inductive LedgerOp where
  | create (assigned_to email : String) (expiry_days uses : Int)
      (notes access_level : String) (generated_code : String)
  | validate (access_code : String) (log_id : String)
  | disable (access_code : String)
  | update (access_code : String) (u : CodeUpdates)
deriving DecidableEq, Repr

/-- The state transformer of one ledger operation on the persisted pair of
tables (`disable` and `update` never touch the log table in the source). -/
def applyOp (op : LedgerOp) (current_time : Timestamp)
    (codes : CodeTable) (logs : LogTable) : CodeTable × LogTable :=
  match op with
  | .create a e d u n lvl g =>
    ((create_access_code a e d u n lvl codes g current_time).2, logs)
  | .validate c i => (validate_access_code c codes logs current_time i).2
  | .disable c => ((disable_access_code c codes).2, logs)
  | .update c u => ((update_access_code c u codes).2, logs)

/-- The generated-code argument of a `create` step is fresh, as
`_generate_access_code` guarantees; trivial for the other operations. -/
def LedgerOp.freshGen : LedgerOp → CodeTable → Prop
  | .create _ _ _ _ _ _ g, codes => codes.lookup g = none
  | _, _ => True

/-- The log-id argument of a `validate` step is fresh, as `uuid4`
guarantees; trivial for the other operations. -/
def LedgerOp.freshLogId : LedgerOp → LogTable → Prop
  | .validate _ i, logs => logs.lookup i = none
  | _, _ => True

/-- The operation is an `update` whose field map supplies
`is_valid = true`. -/
def LedgerOp.suppliesValidTrue : LedgerOp → Prop
  | .update _ u => u.is_valid = some true
  | _ => False

/-- Iterate `validate_access_code` on the persisted tables, reading the
wall clock `ts n` and drawing the fresh log id `ids n` at the `n`-th call
(the log table never feeds back into validation). -/
def validateSeq (c : String) (ts : Nat → Timestamp) (ids : Nat → String)
    (st : CodeTable × LogTable) : Nat → CodeTable × LogTable
  | 0 => st
  | n + 1 =>
    let st' := validateSeq c ts ids st n
    (validate_access_code c st'.1 st'.2 (ts n) (ids n)).2

/-! ## Concrete records used to instantiate the theorems -/

/-- A live standard-level record expiring at day 10. -/
def wCode : CodeData :=
  { assigned_to := "Ann", email := "ann@example.com", created_at := 0,
    expires_at := 10, is_valid := true, uses_remaining := 2,
    last_used := none, notes := "", access_level := "standard" }

/-- A live record whose expiry (day −3) lies before wall clock 0. -/
def wExpired : CodeData := { wCode with expires_at := -3 }

/-- `wCode` after a manual disable. -/
def wDisabled : CodeData := { wCode with is_valid := false }

/-- A live record carrying an unrecognized access level. -/
def wUnknownLevel : CodeData :=
  { assigned_to := "Uma", email := "uma@example.com", created_at := 0,
    expires_at := 10, is_valid := true, uses_remaining := 3,
    last_used := none, notes := "", access_level := "superuser" }

/-- A live record whose expiry lies around year 2170 on the model
timeline, tripping the far-future scan. -/
def wFarFuture : CodeData := { wCode with expires_at := 73000 }

/-- The row `list_access_codes` derives for `wCode` in a one-entry table at
wall clock 0. -/
def wInfo : CodeInfo :=
  { toCodeData := wCode, code := "ABC123",
    status := codeStatus wCode (referenceTime [("ABC123", wCode)] 0) }

/-- A complete log entry at day 0. -/
def wLog0 : LogEntry :=
  { access_code := some "ABC123", user := some "Ann",
    action := some "login", timestamp := 0 }

/-- A stored log entry lacking the `user` field. -/
def wLogNoUser : LogEntry :=
  { access_code := some "ABC123", user := none,
    action := some "login", timestamp := 5 }

/-! ## Dictionary lemmas -/

theorem lookup_cons_eq (rest : List (String × α)) (k : String) (v : α) :
    List.lookup k ((k, v) :: rest) = some v := by
  simp [List.lookup]

theorem lookup_cons_ne (rest : List (String × α)) (p : String × α) {k' : String}
    (h : k' ≠ p.1) : List.lookup k' (p :: rest) = List.lookup k' rest := by
  rcases p with ⟨a, b⟩
  simp only at h
  have hb : (k' == a) = false := beq_false_of_ne h
  simp [List.lookup, hb]

theorem lookup_setKey_self {l : List (String × α)} {k : String} (v : α)
    (h : (l.lookup k).isSome) : (setKey k v l).lookup k = some v := by
  induction l with
  | nil => simp [List.lookup] at h
  | cons p rest ih =>
    rw [setKey, List.map_cons]
    by_cases hp : p.1 = k
    · rw [if_pos hp, lookup_cons_eq]
    · rw [if_neg hp]
      have hne : k ≠ p.1 := fun e => hp e.symm
      rw [lookup_cons_ne _ _ hne]
      rw [lookup_cons_ne _ _ hne] at h
      exact ih h

theorem lookup_setKey_ne {l : List (String × α)} {k k' : String} (v : α)
    (h : k' ≠ k) : (setKey k v l).lookup k' = l.lookup k' := by
  induction l with
  | nil => rfl
  | cons p rest ih =>
    rw [setKey, List.map_cons]
    by_cases hp : p.1 = k
    · rw [if_pos hp]
      rw [lookup_cons_ne _ _ (by simpa using h), lookup_cons_ne _ _ (hp ▸ h)]
      exact ih
    · rw [if_neg hp]
      by_cases hq : k' = p.1
      · subst hq
        rcases p with ⟨a, b⟩
        rw [lookup_cons_eq, lookup_cons_eq]
      · rw [lookup_cons_ne _ _ hq, lookup_cons_ne _ _ hq]
        exact ih

theorem keys_setKey (k : String) (v : α) (l : List (String × α)) :
    (setKey k v l).map Prod.fst = l.map Prod.fst := by
  rw [setKey, List.map_map]
  apply List.map_congr_left
  intro p _
  by_cases hp : p.1 = k
  · simp [hp]
  · simp [hp]

theorem setKey_of_not_mem {l : List (String × α)} {k : String} (v : α)
    (h : k ∉ l.map Prod.fst) : setKey k v l = l := by
  induction l with
  | nil => rfl
  | cons p rest ih =>
    simp only [List.map_cons, List.mem_cons, not_or] at h
    rw [setKey, List.map_cons, if_neg (fun e => h.1 e.symm)]
    have htail : setKey k v rest = rest := ih h.2
    rw [setKey] at htail
    rw [htail]

theorem mem_of_lookup_some {l : List (String × α)} {k : String} {v : α}
    (h : l.lookup k = some v) : (k, v) ∈ l := by
  induction l with
  | nil => simp [List.lookup] at h
  | cons p rest ih =>
    by_cases hk : k = p.1
    · rcases p with ⟨p1, p2⟩
      simp only at hk
      subst hk
      rw [lookup_cons_eq] at h
      injection h with h
      subst h
      exact List.mem_cons_self _ _
    · rw [lookup_cons_ne _ _ hk] at h
      exact List.mem_cons_of_mem _ (ih h)

/-! ## Reference-time stability under record mutation -/

theorem hasFutureDates_setKey {codes : CodeTable} {k : String} {d : CodeData}
    (v : CodeData) (hn : (codes.map Prod.fst).Nodup)
    (hlk : codes.lookup k = some d) (hexp : v.expires_at = d.expires_at)
    (t : Timestamp) :
    hasFutureDates (setKey k v codes) t = hasFutureDates codes t := by
  induction codes with
  | nil => simp [List.lookup] at hlk
  | cons p rest ih =>
    rw [List.map_cons, List.nodup_cons] at hn
    by_cases hp : p.1 = k
    · rcases p with ⟨p1, p2⟩
      simp only at hp
      subst hp
      rw [lookup_cons_eq] at hlk
      injection hlk with hlk
      subst hlk
      rw [setKey, List.map_cons, if_pos rfl]
      have htail : setKey p1 v rest = rest := setKey_of_not_mem v hn.1
      rw [setKey] at htail
      rw [htail]
      simp [hasFutureDates, List.any_cons, hexp]
    · rw [lookup_cons_ne _ _ (fun e => hp e.symm)] at hlk
      rw [setKey, List.map_cons, if_neg hp]
      simp only [hasFutureDates, List.any_cons]
      have hrest := ih hn.2 hlk
      rw [hasFutureDates, hasFutureDates, setKey] at hrest
      rw [hrest]

theorem referenceTime_setKey {codes : CodeTable} {k : String} {d : CodeData}
    (v : CodeData) (hn : (codes.map Prod.fst).Nodup)
    (hlk : codes.lookup k = some d) (hexp : v.expires_at = d.expires_at)
    (t : Timestamp) :
    referenceTime (setKey k v codes) t = referenceTime codes t := by
  rw [referenceTime, referenceTime, hasFutureDates_setKey v hn hlk hexp]

/-! ## Path characterizations of `validate_access_code` -/

theorem validate_notfound {c : String} {codes : CodeTable} (logs : LogTable)
    (t : Timestamp) (i : String)
    (h : codes.lookup (normalizeCode c) = none) :
    validate_access_code c codes logs t i =
      ({ valid := false, message := "Invalid access code" }, codes, logs) := by
  simp only [validate_access_code, h]

theorem validate_disabled_step {c : String} {codes : CodeTable} (logs : LogTable)
    (t : Timestamp) (i : String) {d : CodeData}
    (hlk : codes.lookup (normalizeCode c) = some d) (hv : d.is_valid = false) :
    validate_access_code c codes logs t i =
      ({ valid := false, message := "Access code has been disabled" }, codes, logs) := by
  simp only [validate_access_code, hlk]
  simp [hv]

theorem validate_expired_step {c : String} {codes : CodeTable} (logs : LogTable)
    (t : Timestamp) (i : String) {d : CodeData}
    (hlk : codes.lookup (normalizeCode c) = some d) (hv : d.is_valid = true)
    (hexp : d.expires_at < referenceTime codes t) :
    validate_access_code c codes logs t i =
      ({ valid := false, message := "Access code has expired" },
       setKey (normalizeCode c) { d with is_valid := false } codes, logs) := by
  simp only [validate_access_code, hlk]
  rw [if_neg (by simp [hv]), if_pos hexp]

theorem validate_depleted_step {c : String} {codes : CodeTable} (logs : LogTable)
    (t : Timestamp) (i : String) {d : CodeData}
    (hlk : codes.lookup (normalizeCode c) = some d) (hv : d.is_valid = true)
    (hexp : ¬ d.expires_at < referenceTime codes t) (hu : d.uses_remaining ≤ 0) :
    validate_access_code c codes logs t i =
      ({ valid := false, message := "Access code has no remaining uses" },
       codes, logs) := by
  simp only [validate_access_code, hlk]
  rw [if_neg (by simp [hv]), if_neg hexp, if_pos hu]

theorem validate_success_step {c : String} {codes : CodeTable} (logs : LogTable)
    (t : Timestamp) (i : String) {d : CodeData}
    (hlk : codes.lookup (normalizeCode c) = some d) (hv : d.is_valid = true)
    (hexp : referenceTime codes t ≤ d.expires_at) (hu : 0 < d.uses_remaining) :
    validate_access_code c codes logs t i =
      ({ valid := true, message := "Access code validated successfully",
         user_name := some d.assigned_to, access_level := some d.access_level,
         permissions := some ((ACCESS_LEVELS.lookup d.access_level).getD
           ((ACCESS_LEVELS.lookup "standard").getD default)),
         expires_at := some d.expires_at,
         uses_remaining := some (d.uses_remaining - 1) },
       setKey (normalizeCode c)
         { d with last_used := some (referenceTime codes t),
                  uses_remaining := d.uses_remaining - 1 } codes,
       log_access (normalizeCode c) d.assigned_to "login"
         (setKey (normalizeCode c)
           { d with last_used := some (referenceTime codes t),
                    uses_remaining := d.uses_remaining - 1 } codes)
         logs t i) := by
  simp only [validate_access_code, hlk]
  rw [if_neg (by simp [hv]), if_neg (not_lt.mpr hexp), if_neg (not_le.mpr hu)]

/-! ## Claims -/

/-- C1: `validate_access_code` returns `valid = true` iff the normalized
form of the code is present in the table and its record has
`is_valid = true`, `expires_at` at/after the operation's reference time,
and `uses_remaining > 0`; in every other case it returns `valid = false`
with the message of the corresponding reason (not found / disabled /
expired / depleted). -/
theorem validate_valid_iff (c : String) (codes : CodeTable) (logs : LogTable)
    (t : Timestamp) (i : String) :
    ((validate_access_code c codes logs t i).1.valid = true ↔
      ∃ d, codes.lookup (normalizeCode c) = some d ∧ d.is_valid = true ∧
        referenceTime codes t ≤ d.expires_at ∧ 0 < d.uses_remaining) ∧
    (codes.lookup (normalizeCode c) = none →
      (validate_access_code c codes logs t i).1 =
        { valid := false, message := "Invalid access code" }) ∧
    (∀ d, codes.lookup (normalizeCode c) = some d → d.is_valid = false →
      (validate_access_code c codes logs t i).1 =
        { valid := false, message := "Access code has been disabled" }) ∧
    (∀ d, codes.lookup (normalizeCode c) = some d → d.is_valid = true →
      d.expires_at < referenceTime codes t →
      (validate_access_code c codes logs t i).1 =
        { valid := false, message := "Access code has expired" }) ∧
    (∀ d, codes.lookup (normalizeCode c) = some d → d.is_valid = true →
      referenceTime codes t ≤ d.expires_at → d.uses_remaining ≤ 0 →
      (validate_access_code c codes logs t i).1 =
        { valid := false, message := "Access code has no remaining uses" }) := by
  rcases hlk : codes.lookup (normalizeCode c) with _ | d
  · rw [validate_notfound logs t i hlk]
    exact ⟨by simp, fun _ => rfl,
      fun d hd => Option.noConfusion hd,
      fun d hd => Option.noConfusion hd,
      fun d hd => Option.noConfusion hd⟩
  · have hinj : ∀ d' : CodeData, some d = some d' → d' = d :=
      fun d' hd' => (Option.some.inj hd').symm
    by_cases hv : d.is_valid = true
    · by_cases hexp : d.expires_at < referenceTime codes t
      · rw [validate_expired_step logs t i hlk hv hexp]
        refine ⟨?_, fun hnone => Option.noConfusion hnone, ?_,
          fun _ _ _ _ => rfl, ?_⟩
        · simp only [show (false = true) = False by simp, false_iff]
          rintro ⟨d', hd', -, hexp', -⟩
          rw [hinj d' hd'] at hexp'
          exact absurd hexp (not_lt.mpr hexp')
        · intro d' hd' hvf
          rw [hinj d' hd'] at hvf
          rw [hv] at hvf
          cases hvf
        · intro d' hd' _ hexp' _
          rw [hinj d' hd'] at hexp'
          exact absurd hexp (not_lt.mpr hexp')
      · by_cases hu : d.uses_remaining ≤ 0
        · rw [validate_depleted_step logs t i hlk hv hexp hu]
          refine ⟨?_, fun hnone => Option.noConfusion hnone, ?_, ?_,
            fun _ _ _ _ _ => rfl⟩
          · simp only [show (false = true) = False by simp, false_iff]
            rintro ⟨d', hd', -, -, hu'⟩
            rw [hinj d' hd'] at hu'
            exact absurd hu (not_le.mpr hu')
          · intro d' hd' hvf
            rw [hinj d' hd'] at hvf
            rw [hv] at hvf
            cases hvf
          · intro d' hd' _ hexp'
            exact absurd (hinj d' hd' ▸ hexp') hexp
        · rw [validate_success_step logs t i hlk hv (not_lt.mp hexp) (not_le.mp hu)]
          refine ⟨?_, fun hnone => Option.noConfusion hnone, ?_, ?_, ?_⟩
          · simp only [true_iff]
            exact ⟨d, rfl, hv, not_lt.mp hexp, not_le.mp hu⟩
          · intro d' hd' hvf
            rw [hinj d' hd'] at hvf
            rw [hv] at hvf
            cases hvf
          · intro d' hd' _ hexp'
            exact absurd (hinj d' hd' ▸ hexp') hexp
          · intro d' hd' _ _ hu'
            exact absurd (hinj d' hd' ▸ hu') hu
    · have hvf : d.is_valid = false := by
        revert hv
        cases d.is_valid <;> simp
      rw [validate_disabled_step logs t i hlk hvf]
      refine ⟨?_, fun hnone => Option.noConfusion hnone,
        fun _ _ _ => rfl, ?_, ?_⟩
      · simp only [show (false = true) = False by simp, false_iff]
        rintro ⟨d', hd', hv', -, -⟩
        rw [hinj d' hd'] at hv'
        exact hv hv'
      · intro d' hd' hv' _
        exact absurd (hinj d' hd' ▸ hv') hv
      · intro d' hd' hv' _ _
        exact absurd (hinj d' hd' ▸ hv') hv

/-- Witness for C1 at a concrete live code, validated with surrounding
whitespace and lowercase input. -/
theorem validate_valid_iff_witness :
    (validate_access_code " abc123 " [("ABC123", wCode)] [] 0 "L1").1.valid = true :=
  (validate_valid_iff " abc123 " [("ABC123", wCode)] [] 0 "L1").1.mpr
    ⟨wCode, by decide, by decide, by decide, by decide⟩

theorem dictInsert_fresh {l : List (String × α)} {g : String} (v : α)
    (h : l.lookup g = none) : dictInsert g v l = l ++ [(g, v)] := by
  rw [dictInsert, h]
  rfl

theorem create_table_cases (a e : String) (expiry_days uses : Int)
    (n lvl : String) (codes : CodeTable) (g : String) (t : Timestamp) :
    (create_access_code a e expiry_days uses n lvl codes g t).2 = codes ∨
    ∃ nd : CodeData, nd.is_valid = true ∧
      (create_access_code a e expiry_days uses n lvl codes g t).2 =
        dictInsert g nd codes := by
  rw [create_access_code]
  by_cases hl : (ACCESS_LEVELS.lookup lvl).isNone
  · rw [if_pos hl]
    exact Or.inl rfl
  · rw [if_neg hl]
    exact Or.inr ⟨_, rfl, rfl⟩

theorem validate_table_cases (c : String) (codes : CodeTable) (logs : LogTable)
    (t : Timestamp) (i : String) :
    (validate_access_code c codes logs t i).2.1 = codes ∨
    (∃ d0 : CodeData, codes.lookup (normalizeCode c) = some d0 ∧
      (validate_access_code c codes logs t i).2.1 =
        setKey (normalizeCode c) { d0 with is_valid := false } codes) ∨
    (∃ d0 : CodeData, codes.lookup (normalizeCode c) = some d0 ∧
      d0.is_valid = true ∧
      (validate_access_code c codes logs t i).2.1 =
        setKey (normalizeCode c)
          { d0 with last_used := some (referenceTime codes t),
                    uses_remaining := d0.uses_remaining - 1 } codes) := by
  rcases hlk : codes.lookup (normalizeCode c) with _ | d0
  · rw [validate_notfound logs t i hlk]
    exact Or.inl rfl
  · by_cases hv : d0.is_valid = true
    · by_cases hexp : d0.expires_at < referenceTime codes t
      · rw [validate_expired_step logs t i hlk hv hexp]
        exact Or.inr (Or.inl ⟨d0, rfl, rfl⟩)
      · by_cases hu : d0.uses_remaining ≤ 0
        · rw [validate_depleted_step logs t i hlk hv hexp hu]
          exact Or.inl rfl
        · rw [validate_success_step logs t i hlk hv (not_lt.mp hexp)
            (not_le.mp hu)]
          exact Or.inr (Or.inr ⟨d0, rfl, hv, rfl⟩)
    · have hvf : d0.is_valid = false := by
        revert hv
        cases d0.is_valid <;> simp
      rw [validate_disabled_step logs t i hlk hvf]
      exact Or.inl rfl

theorem disable_table_cases (c : String) (codes : CodeTable) :
    (disable_access_code c codes).2 = codes ∨
    ∃ d0 : CodeData, codes.lookup (normalizeCode c) = some d0 ∧
      (disable_access_code c codes).2 =
        setKey (normalizeCode c) { d0 with is_valid := false } codes := by
  rcases hlk : codes.lookup (normalizeCode c) with _ | d0
  · exact Or.inl (by simp only [disable_access_code, hlk])
  · exact Or.inr ⟨d0, rfl, by simp only [disable_access_code, hlk]⟩

theorem update_table_cases (c : String) (u : CodeUpdates) (codes : CodeTable) :
    (update_access_code c u codes).2 = codes ∨
    ∃ d0 : CodeData, codes.lookup (normalizeCode c) = some d0 ∧
      (update_access_code c u codes).2 =
        setKey (normalizeCode c) (applyUpdates d0 u) codes := by
  rcases hlk : codes.lookup (normalizeCode c) with _ | d0
  · exact Or.inl (by simp only [update_access_code, hlk])
  · exact Or.inr ⟨d0, rfl, by simp only [update_access_code, hlk]⟩

/-- C8: creating a code with an access level outside
`{standard, admin, read_only}` fails (returns no code) and leaves the code
table exactly as it was. -/
theorem create_rejects_unknown_level (a e : String) (expiry_days uses : Int)
    (n lvl : String) (codes : CodeTable) (g : String) (t : Timestamp)
    (h : lvl ∉ (["standard", "admin", "read_only"] : List String)) :
    create_access_code a e expiry_days uses n lvl codes g t = (none, codes) := by
  have h1 : lvl ≠ "standard" := fun hh => h (by simp [hh])
  have h2 : lvl ≠ "admin" := fun hh => h (by simp [hh])
  have h3 : lvl ≠ "read_only" := fun hh => h (by simp [hh])
  have hl : ACCESS_LEVELS.lookup lvl = none := by
    simp [ACCESS_LEVELS, List.lookup, beq_false_of_ne h1, beq_false_of_ne h2,
      beq_false_of_ne h3]
  simp [create_access_code, hl]

/-- Witness for C8 with the unrecognized level `"superuser"` over a
nonempty table. -/
theorem create_rejects_unknown_level_witness :
    create_access_code "Ann" "ann@example.com" 30 100 "" "superuser"
      [("ABC123", wCode)] "ZZZZZZ" 0 = (none, [("ABC123", wCode)]) :=
  create_rejects_unknown_level "Ann" "ann@example.com" 30 100 "" "superuser"
    [("ABC123", wCode)] "ZZZZZZ" 0 (by decide)

/-- C10: a record whose stored `access_level` is not one of the three known
levels still validates successfully (when live, unexpired and with uses
left) and reports the `standard` level's permission set. -/
theorem validate_unknown_level_standard_permissions (c : String)
    (codes : CodeTable) (logs : LogTable) (t : Timestamp) (i : String)
    (d : CodeData)
    (hlk : codes.lookup (normalizeCode c) = some d)
    (hv : d.is_valid = true)
    (hexp : referenceTime codes t ≤ d.expires_at)
    (hu : 0 < d.uses_remaining)
    (hlvl : ACCESS_LEVELS.lookup d.access_level = none) :
    (validate_access_code c codes logs t i).1.valid = true ∧
    (validate_access_code c codes logs t i).1.permissions =
      some { can_upload_images := true, can_generate_reports := true,
             can_access_admin := false, can_modify_data := false } := by
  rw [validate_success_step logs t i hlk hv hexp hu]
  refine ⟨rfl, ?_⟩
  show some ((ACCESS_LEVELS.lookup d.access_level).getD
    ((ACCESS_LEVELS.lookup "standard").getD default)) = _
  rw [hlvl]
  rfl

theorem codeStatus_spec (d : CodeData) (r : Timestamp) :
    (codeStatus d r = "disabled" ∨ codeStatus d r = "expired" ∨
      codeStatus d r = "depleted" ∨ codeStatus d r = "active") ∧
    (codeStatus d r = "disabled" ↔ d.is_valid = false) ∧
    (codeStatus d r = "expired" ↔ d.is_valid = true ∧ d.expires_at < r) ∧
    (codeStatus d r = "depleted" ↔ d.is_valid = true ∧ r ≤ d.expires_at ∧
      d.uses_remaining ≤ 0) ∧
    (codeStatus d r = "active" ↔ d.is_valid = true ∧ r ≤ d.expires_at ∧
      0 < d.uses_remaining) := by
  unfold codeStatus
  split_ifs with h1 h2 h3
  · refine ⟨Or.inl rfl, ?_, ?_, ?_, ?_⟩ <;>
      constructor <;> intro hh
    · exact h1
    · rfl
    · exact absurd hh (by decide)
    · rw [h1] at hh
      exact absurd hh.1 (by simp)
    · exact absurd hh (by decide)
    · rw [h1] at hh
      exact absurd hh.1 (by simp)
    · exact absurd hh (by decide)
    · rw [h1] at hh
      exact absurd hh.1 (by simp)
  · have hv : d.is_valid = true := by
      revert h1
      cases d.is_valid <;> simp
    refine ⟨Or.inr (Or.inl rfl), ?_, ?_, ?_, ?_⟩ <;>
      constructor <;> intro hh
    · exact absurd hh (by decide)
    · rw [hh] at hv
      cases hv
    · exact ⟨hv, h2⟩
    · rfl
    · exact absurd hh (by decide)
    · exact absurd h2 (not_lt.mpr hh.2.1)
    · exact absurd hh (by decide)
    · exact absurd h2 (not_lt.mpr hh.2.1)
  · have hv : d.is_valid = true := by
      revert h1
      cases d.is_valid <;> simp
    refine ⟨Or.inr (Or.inr (Or.inl rfl)), ?_, ?_, ?_, ?_⟩ <;>
      constructor <;> intro hh
    · exact absurd hh (by decide)
    · rw [hh] at hv
      cases hv
    · exact absurd hh (by decide)
    · exact absurd hh.2 h2
    · exact ⟨hv, not_lt.mp h2, h3⟩
    · rfl
    · exact absurd hh (by decide)
    · exact absurd h3 (not_le.mpr hh.2.2)
  · have hv : d.is_valid = true := by
      revert h1
      cases d.is_valid <;> simp
    refine ⟨Or.inr (Or.inr (Or.inr rfl)), ?_, ?_, ?_, ?_⟩ <;>
      constructor <;> intro hh
    · exact absurd hh (by decide)
    · rw [hh] at hv
      cases hv
    · exact absurd hh (by decide)
    · exact absurd hh.2 h2
    · exact absurd hh (by decide)
    · exact absurd hh.2.2 h3
    · exact ⟨hv, not_lt.mp h2, not_le.mp h3⟩
    · rfl

/-- C3: validating a code whose `expires_at` is before the operation's
reference time fails with the expiry message, mutates the record to
`is_valid = false` in the returned (persisted) table, and a subsequent
`list_access_codes`, at any later wall clock, reports that code with
status `"disabled"` (not `"expired"`). -/
theorem validate_expired_auto_disables (c : String) (codes : CodeTable)
    (logs : LogTable) (t t' : Timestamp) (i : String) (d : CodeData)
    (hlk : codes.lookup (normalizeCode c) = some d)
    (hv : d.is_valid = true)
    (hexp : d.expires_at < referenceTime codes t) :
    (validate_access_code c codes logs t i).1 =
      { valid := false, message := "Access code has expired" } ∧
    (validate_access_code c codes logs t i).2.1 =
      setKey (normalizeCode c) { d with is_valid := false } codes ∧
    (validate_access_code c codes logs t i).2.1.lookup (normalizeCode c) =
      some { d with is_valid := false } ∧
    (∃ e ∈ list_access_codes (validate_access_code c codes logs t i).2.1 t',
      e.code = normalizeCode c) ∧
    (∀ e ∈ list_access_codes (validate_access_code c codes logs t i).2.1 t',
      e.code = normalizeCode c → e.status = "disabled") := by
  rw [validate_expired_step logs t i hlk hv hexp]
  have hlk' : (setKey (normalizeCode c) ({ d with is_valid := false } : CodeData)
      codes).lookup (normalizeCode c) = some { d with is_valid := false } :=
    lookup_setKey_self _ (by rw [hlk]; rfl)
  refine ⟨rfl, rfl, hlk', ?_, ?_⟩
  · exact ⟨_, List.mem_map_of_mem _ (mem_of_lookup_some hlk'), rfl⟩
  · intro e he hcode
    simp only [list_access_codes, List.mem_map] at he
    obtain ⟨p, hp, rfl⟩ := he
    simp only [setKey, List.mem_map] at hp
    obtain ⟨q, _, hpq⟩ := hp
    by_cases hq1 : q.1 = normalizeCode c
    · rw [if_pos hq1] at hpq
      subst hpq
      rfl
    · rw [if_neg hq1] at hpq
      subst hpq
      exact absurd hcode hq1

/-- Witness for C3: a live but expired record, validated, then listed. -/
theorem validate_expired_auto_disables_witness :
    (validate_access_code "OLD111" [("OLD111", wExpired)] [] 0 "L1").1 =
      { valid := false, message := "Access code has expired" } ∧
    (validate_access_code "OLD111" [("OLD111", wExpired)] [] 0 "L1").2.1 =
      setKey (normalizeCode "OLD111") { wExpired with is_valid := false }
        [("OLD111", wExpired)] ∧
    (validate_access_code "OLD111" [("OLD111", wExpired)] [] 0
      "L1").2.1.lookup (normalizeCode "OLD111") =
      some { wExpired with is_valid := false } ∧
    (∃ e ∈ list_access_codes
      (validate_access_code "OLD111" [("OLD111", wExpired)] [] 0 "L1").2.1 5,
      e.code = normalizeCode "OLD111") ∧
    (∀ e ∈ list_access_codes
      (validate_access_code "OLD111" [("OLD111", wExpired)] [] 0 "L1").2.1 5,
      e.code = normalizeCode "OLD111" → e.status = "disabled") :=
  validate_expired_auto_disables "OLD111" [("OLD111", wExpired)] [] 0 5 "L1"
    wExpired (by decide) (by decide) (by decide)

/-- C7: the status derived by `list_access_codes` is total and mutually
exclusive: every listed record carries exactly one of `disabled`,
`expired`, `depleted`, `active`, with disabled taking priority over
expired, which takes priority over depleted, falling through to active. -/
theorem list_status_partition (codes : CodeTable) (t : Timestamp) :
    ∀ e ∈ list_access_codes codes t,
      (e.status = "disabled" ∨ e.status = "expired" ∨ e.status = "depleted" ∨
        e.status = "active") ∧
      (e.status = "disabled" ↔ e.is_valid = false) ∧
      (e.status = "expired" ↔ e.is_valid = true ∧
        e.expires_at < referenceTime codes t) ∧
      (e.status = "depleted" ↔ e.is_valid = true ∧
        referenceTime codes t ≤ e.expires_at ∧ e.uses_remaining ≤ 0) ∧
      (e.status = "active" ↔ e.is_valid = true ∧
        referenceTime codes t ≤ e.expires_at ∧ 0 < e.uses_remaining) := by
  intro e he
  simp only [list_access_codes, List.mem_map] at he
  obtain ⟨p, _, rfl⟩ := he
  exact codeStatus_spec p.2 (referenceTime codes t)

/-- Witness for C7 at the single-entry table holding `wCode`. -/
theorem list_status_partition_witness :
    wInfo.status = "disabled" ∨ wInfo.status = "expired" ∨
      wInfo.status = "depleted" ∨ wInfo.status = "active" :=
  (list_status_partition [("ABC123", wCode)] 0 wInfo (by decide)).1

/-- Witness for C10 at a concrete record with level `"superuser"`. -/
theorem validate_unknown_level_standard_permissions_witness :
    (validate_access_code "XYZ789" [("XYZ789", wUnknownLevel)] [] 0 "L1").1.valid = true ∧
    (validate_access_code "XYZ789" [("XYZ789", wUnknownLevel)] [] 0 "L1").1.permissions =
      some { can_upload_images := true, can_generate_reports := true,
             can_access_admin := false, can_modify_data := false } :=
  validate_unknown_level_standard_permissions "XYZ789" [("XYZ789", wUnknownLevel)]
    [] 0 "L1" wUnknownLevel (by decide) (by decide) (by decide) (by decide) (by decide)

/-- C4 (code-bug exhibit): `create_access_code` stores
`expires_at = reference time + expiry_days`, but the reference time is not
the wall clock at operation start whenever the prior table holds an expiry
more than a year in the future: there the fixed test instant
`testReferenceTime` is substituted, so the stored expiry differs from
wall clock + `expiry_days`.  Over a table with no far-future expiries, the
wall clock is used. -/
theorem create_future_dates_override_wall_clock :
    (create_access_code "Bob" "bob@example.com" 30 100 "" "standard"
      [("AAAAAA", wFarFuture)] "BBBBBB" 0).1 = some "BBBBBB" ∧
    ((create_access_code "Bob" "bob@example.com" 30 100 "" "standard"
      [("AAAAAA", wFarFuture)] "BBBBBB" 0).2.lookup "BBBBBB").map
      CodeData.expires_at = some (testReferenceTime + 30) ∧
    testReferenceTime + 30 ≠ 0 + 30 ∧
    ((create_access_code "Bob" "bob@example.com" 30 100 "" "standard"
      [("AAAAAA", wCode)] "BBBBBB" 0).2.lookup "BBBBBB").map
      CodeData.expires_at = some (0 + 30) := by
  decide

/-- C6 counterexample: `update_access_code` with a field map supplying
`is_valid = true` turns a disabled record live again. -/
theorem update_reenables_disabled_code :
    ((update_access_code "ABC123" { is_valid := some true }
      [("ABC123", wDisabled)]).2.lookup "ABC123").map CodeData.is_valid =
      some true := by
  decide

/-- C6 (amended): once a record's `is_valid` is `false`, `create`,
`validate` and `disable` never set it back to `true`, and neither does an
`update` whose field map does not supply `is_valid = true`; an update
supplying `is_valid = true` does re-enable the record (see the
counterexample). -/
theorem is_valid_false_preserved (op : LedgerOp) (t : Timestamp)
    (codes : CodeTable) (logs : LogTable) (k : String) (d : CodeData)
    (hgen : op.freshGen codes)
    (hnv : ¬ op.suppliesValidTrue)
    (hlk : codes.lookup k = some d)
    (hd : d.is_valid = false) :
    ∀ d', (applyOp op t codes logs).1.lookup k = some d' →
      d'.is_valid = false := by
  intro d' hd'
  cases op with
  | create a e expiry_days uses n lvl g =>
    simp only [applyOp] at hd'
    rcases create_table_cases a e expiry_days uses n lvl codes g t with
      hc | ⟨nd, -, hc⟩
    · rw [hc, hlk] at hd'
      injection hd' with hd'
      rw [← hd']
      exact hd
    · have hg : codes.lookup g = none := hgen
      rw [hc, dictInsert_fresh _ hg, List.lookup_append, hlk] at hd'
      injection hd' with hd'
      rw [← hd']
      exact hd
  | validate c i =>
    simp only [applyOp] at hd'
    rcases validate_table_cases c codes logs t i with
      hc | ⟨d0, h0, hc⟩ | ⟨d0, h0, hv0, hc⟩
    · rw [hc, hlk] at hd'
      injection hd' with hd'
      rw [← hd']
      exact hd
    · rw [hc] at hd'
      by_cases hk : k = normalizeCode c
      · subst hk
        rw [lookup_setKey_self _ (by rw [h0]; rfl)] at hd'
        injection hd' with hd'
        rw [← hd']
      · rw [lookup_setKey_ne _ hk, hlk] at hd'
        injection hd' with hd'
        rw [← hd']
        exact hd
    · rw [hc] at hd'
      by_cases hk : k = normalizeCode c
      · subst hk
        rw [hlk] at h0
        injection h0 with h0
        rw [← h0] at hv0
        rw [hd] at hv0
        cases hv0
      · rw [lookup_setKey_ne _ hk, hlk] at hd'
        injection hd' with hd'
        rw [← hd']
        exact hd
  | disable c =>
    simp only [applyOp] at hd'
    rcases disable_table_cases c codes with hc | ⟨d0, h0, hc⟩
    · rw [hc, hlk] at hd'
      injection hd' with hd'
      rw [← hd']
      exact hd
    · rw [hc] at hd'
      by_cases hk : k = normalizeCode c
      · subst hk
        rw [lookup_setKey_self _ (by rw [h0]; rfl)] at hd'
        injection hd' with hd'
        rw [← hd']
      · rw [lookup_setKey_ne _ hk, hlk] at hd'
        injection hd' with hd'
        rw [← hd']
        exact hd
  | update c u =>
    simp only [applyOp] at hd'
    have hnvu : u.is_valid ≠ some true := hnv
    rcases update_table_cases c u codes with hc | ⟨d0, h0, hc⟩
    · rw [hc, hlk] at hd'
      injection hd' with hd'
      rw [← hd']
      exact hd
    · rw [hc] at hd'
      by_cases hk : k = normalizeCode c
      · subst hk
        rw [hlk] at h0
        injection h0 with h0
        rw [lookup_setKey_self _ (by rw [hlk]; rfl)] at hd'
        injection hd' with hd'
        rw [← hd']
        show (applyUpdates d0 u).is_valid = false
        rw [← h0]
        show u.is_valid.getD d.is_valid = false
        rcases hb : u.is_valid with _ | b
        · exact hd
        · cases b
          · rfl
          · exact absurd hb hnvu
      · rw [lookup_setKey_ne _ hk, hlk] at hd'
        injection hd' with hd'
        rw [← hd']
        exact hd

theorem validate_logs_cases (c : String) (codes : CodeTable) (logs : LogTable)
    (t : Timestamp) (i : String) :
    ((validate_access_code c codes logs t i).1.valid = false ∧
      (validate_access_code c codes logs t i).2.2 = logs) ∨
    ((validate_access_code c codes logs t i).1.valid = true ∧
      ∃ (d0 : CodeData) (codes' : CodeTable),
        (validate_access_code c codes logs t i).2.2 =
          log_access (normalizeCode c) d0.assigned_to "login" codes' logs t i) := by
  rcases hlk : codes.lookup (normalizeCode c) with _ | d0
  · rw [validate_notfound logs t i hlk]
    exact Or.inl ⟨rfl, rfl⟩
  · by_cases hv : d0.is_valid = true
    · by_cases hexp : d0.expires_at < referenceTime codes t
      · rw [validate_expired_step logs t i hlk hv hexp]
        exact Or.inl ⟨rfl, rfl⟩
      · by_cases hu : d0.uses_remaining ≤ 0
        · rw [validate_depleted_step logs t i hlk hv hexp hu]
          exact Or.inl ⟨rfl, rfl⟩
        · rw [validate_success_step logs t i hlk hv (not_lt.mp hexp)
            (not_le.mp hu)]
          exact Or.inr ⟨rfl, d0, _, rfl⟩
    · have hvf : d0.is_valid = false := by
        revert hv
        cases d0.is_valid <;> simp
      rw [validate_disabled_step logs t i hlk hvf]
      exact Or.inl ⟨rfl, rfl⟩

/-- C9: validation appends exactly one log entry on success (under a fresh
generated log id) and none on failure, and no ledger operation ever mutates
or deletes an existing log entry: the prior log is a sub-map of the log
after any operation. -/
theorem access_log_append_only (op : LedgerOp) (t : Timestamp)
    (codes : CodeTable) (logs : LogTable)
    (hfresh : op.freshLogId logs) :
    (∀ k v, logs.lookup k = some v →
      (applyOp op t codes logs).2.lookup k = some v) ∧
    (∀ c i, op = LedgerOp.validate c i →
      ((validate_access_code c codes logs t i).1.valid = true →
        ∃ entry, (applyOp op t codes logs).2 = logs ++ [(i, entry)]) ∧
      ((validate_access_code c codes logs t i).1.valid = false →
        (applyOp op t codes logs).2 = logs)) ∧
    ((∀ c i, op ≠ LedgerOp.validate c i) → (applyOp op t codes logs).2 = logs) := by
  cases op with
  | create a e expiry_days uses n lvl g =>
    exact ⟨fun k v hkv => hkv, fun c i h => LedgerOp.noConfusion h, fun _ => rfl⟩
  | disable c0 =>
    exact ⟨fun k v hkv => hkv, fun c i h => LedgerOp.noConfusion h, fun _ => rfl⟩
  | update c0 u =>
    exact ⟨fun k v hkv => hkv, fun c i h => LedgerOp.noConfusion h, fun _ => rfl⟩
  | validate c0 i0 =>
    have hf : logs.lookup i0 = none := hfresh
    rcases validate_logs_cases c0 codes logs t i0 with
      ⟨hval, hlogs⟩ | ⟨hval, d0, codes', hlogs⟩
    · refine ⟨fun k v hkv => ?_, fun c i h => ?_,
        fun hne => absurd rfl (hne c0 i0)⟩
      · simp only [applyOp]
        rw [hlogs]
        exact hkv
      · injection h with hc hi
        subst hc
        subst hi
        refine ⟨fun htrue => ?_, fun _ => by simp only [applyOp]; exact hlogs⟩
        rw [hval] at htrue
        cases htrue
    · have happ : ∃ entry, (validate_access_code c0 codes logs t i0).2.2 =
          logs ++ [(i0, entry)] := by
        rw [hlogs]
        simp only [log_access]
        rw [dictInsert_fresh _ hf]
        exact ⟨_, rfl⟩
      obtain ⟨entry, happ⟩ := happ
      refine ⟨fun k v hkv => ?_, fun c i h => ?_,
        fun hne => absurd rfl (hne c0 i0)⟩
      · simp only [applyOp]
        rw [happ, List.lookup_append, hkv]
        rfl
      · injection h with hc hi
        subst hc
        subst hi
        refine ⟨fun _ => ⟨entry, by simp only [applyOp]; exact happ⟩,
          fun hfalse => ?_⟩
        rw [hval] at hfalse
        cases hfalse

/-- Witness for C9: a successful validation over a one-entry log appends
exactly one entry under the fresh id. -/
theorem access_log_append_only_witness :
    ∃ entry, (applyOp (LedgerOp.validate "ABC123" "L1") 0 [("ABC123", wCode)]
      [("L0", wLog0)]).2 = [("L0", wLog0)] ++ [("L1", entry)] :=
  ((access_log_append_only (LedgerOp.validate "ABC123" "L1") 0
    [("ABC123", wCode)] [("L0", wLog0)]
    (show List.lookup "L1" [("L0", wLog0)] = none by decide)).2.1
    "ABC123" "L1" rfl).1 (by decide)

/-- Witness for the amended C6: an update supplying only new notes leaves a
disabled record disabled. -/
theorem is_valid_false_preserved_witness :
    ({ wDisabled with notes := "seen" } : CodeData).is_valid = false :=
  is_valid_false_preserved (.update "ABC123" { notes := some "seen" }) 0
    [("ABC123", wDisabled)] [] "ABC123" wDisabled trivial
    (fun h => Option.noConfusion h) (by decide) (by decide)
    { wDisabled with notes := "seen" } (by decide)

/-- C5 counterexample: a stored entry lacking the `user` field is returned
(not excluded) by `get_access_logs` under a `user` filter — the filter key
check `key in log_entry` skips filters whose field the entry lacks. -/
theorem logs_filter_includes_entry_missing_field :
    get_access_logs (some { user := some "alice" }) [("L1", wLogNoUser)] =
      [{ toLogEntry := wLogNoUser, id := "L1" }] := by
  decide

/-- C5 (amended): `get_access_logs` returns exactly the formatted entries
that pass every supplied filter — exact equality on fields the entry has,
while an entry missing a filtered field passes that filter — sorted by
timestamp descending; with no filter it returns all entries in that
order. -/
theorem get_access_logs_spec (filters : Option LogFilters) (logs : LogTable) :
    (get_access_logs filters logs).Perm
      ((logs.map fun p => ({ toLogEntry := p.2, id := p.1 } : FormattedLog)).filter
        (filterPasses filters)) ∧
    List.Sorted (fun a b => b.timestamp ≤ a.timestamp)
      (get_access_logs filters logs) ∧
    (filters = none → (get_access_logs filters logs).Perm
      (logs.map fun p => ({ toLogEntry := p.2, id := p.1 } : FormattedLog))) := by
  refine ⟨List.perm_insertionSort _ _, ?_, ?_⟩
  · exact @List.sorted_insertionSort FormattedLog
      (fun a b => b.timestamp ≤ a.timestamp) _
      ⟨fun a b => le_total b.timestamp a.timestamp⟩
      ⟨fun a b c h1 h2 => le_trans h2 h1⟩ _
  · intro h
    subst h
    have h1 := List.perm_insertionSort
      (fun a b : FormattedLog => b.timestamp ≤ a.timestamp)
      ((logs.map fun p => ({ toLogEntry := p.2, id := p.1 } : FormattedLog)).filter
        fun _ => true)
    exact h1.trans (List.Perm.of_eq (List.filter_true _))

/-- Witness for the amended C5 over a one-entry log with no filter. -/
theorem get_access_logs_spec_witness :
    (get_access_logs none [("L1", wLog0)]).Perm
      [({ toLogEntry := wLog0, id := "L1" } : FormattedLog)] :=
  (get_access_logs_spec none [("L1", wLog0)]).2.2 rfl

theorem validateSeq_invariant (c : String) (codes : CodeTable)
    (logs : LogTable) (ts : Nat → Timestamp) (ids : Nat → String)
    (d : CodeData) (uses : Nat)
    (hn : (codes.map Prod.fst).Nodup)
    (hlk : codes.lookup (normalizeCode c) = some d)
    (hv : d.is_valid = true)
    (hu : d.uses_remaining = (uses : Int))
    (hexp : ∀ n, referenceTime codes (ts n) ≤ d.expires_at) :
    ∀ k, k ≤ uses → ∃ lu,
      (validateSeq c ts ids (codes, logs) k).1.lookup (normalizeCode c) =
        some { d with uses_remaining := (uses : Int) - (k : Int),
                      last_used := lu } ∧
      (validateSeq c ts ids (codes, logs) k).1.map Prod.fst =
        codes.map Prod.fst ∧
      (∀ t', referenceTime (validateSeq c ts ids (codes, logs) k).1 t' =
        referenceTime codes t') := by
  obtain ⟨da, de, dc, dx, dv, du, dl, dn, dal⟩ := d
  simp only at hv hu hexp
  intro k
  induction k with
  | zero =>
    intro _
    refine ⟨dl, ?_, rfl, fun _ => rfl⟩
    show codes.lookup (normalizeCode c) = _
    rw [hlk]
    simp [hu]
  | succ k ih =>
    intro hk
    obtain ⟨lu, hlkk, hkeys, href⟩ := ih (Nat.le_of_succ_le hk)
    have hkn : ((validateSeq c ts ids (codes, logs) k).1.map Prod.fst).Nodup := by
      rw [hkeys]
      exact hn
    have hsome : ((validateSeq c ts ids
        (codes, logs) k).1.lookup (normalizeCode c)).isSome := by
      rw [hlkk]
      rfl
    have hexpk : referenceTime (validateSeq c ts ids (codes, logs) k).1
        (ts k) ≤ dx := by
      rw [href (ts k)]
      exact hexp k
    have huk : (0 : Int) < (uses : Int) - (k : Int) := by
      have : (k : Int) < (uses : Int) := by exact_mod_cast Nat.lt_of_succ_le hk
      omega
    have hstep := validate_success_step
      (validateSeq c ts ids (codes, logs) k).2 (ts k) (ids k) hlkk hv hexpk huk
    refine ⟨some (referenceTime (validateSeq c ts ids (codes, logs) k).1 (ts k)),
      ?_, ?_, ?_⟩
    · show ((validate_access_code c (validateSeq c ts ids (codes, logs) k).1
        (validateSeq c ts ids (codes, logs) k).2 (ts k) (ids k)).2.1).lookup
          (normalizeCode c) = _
      rw [hstep, lookup_setKey_self _ hsome]
      simp only [Option.some.injEq, CodeData.mk.injEq, true_and, and_true]
      push_cast
      ring
    · show ((validate_access_code c (validateSeq c ts ids (codes, logs) k).1
        (validateSeq c ts ids (codes, logs) k).2 (ts k) (ids k)).2.1).map
          Prod.fst = _
      rw [hstep, keys_setKey]
      exact hkeys
    · intro t'
      show referenceTime ((validate_access_code c
        (validateSeq c ts ids (codes, logs) k).1
        (validateSeq c ts ids (codes, logs) k).2 (ts k) (ids k)).2.1) t' = _
      rw [hstep]
      exact (referenceTime_setKey _ hkn hlkk (by rfl) t').trans (href t')

/-- C2: a code whose record is live with use budget `uses`, validated
repeatedly — at the `n`-th call the wall clock reads `ts n` — while every
call's reference time still lies at or before the record's expiry: each of
the first `uses` validations succeeds and decrements `uses_remaining` by
exactly one (after `k` validations the record shows `uses - k`), and the
`(uses + 1)`-th validation fails with the no-remaining-uses message and
leaves the code table unmutated. -/
theorem fresh_code_depletes_after_uses (c : String) (codes : CodeTable)
    (logs : LogTable) (ts : Nat → Timestamp) (ids : Nat → String)
    (d : CodeData) (uses : Nat)
    (hn : (codes.map Prod.fst).Nodup)
    (hlk : codes.lookup (normalizeCode c) = some d)
    (hv : d.is_valid = true)
    (hu : d.uses_remaining = (uses : Int))
    (hexp : ∀ n, referenceTime codes (ts n) ≤ d.expires_at) :
    (∀ k, k < uses → (validate_access_code c
      (validateSeq c ts ids (codes, logs) k).1
      (validateSeq c ts ids (codes, logs) k).2 (ts k) (ids k)).1.valid = true) ∧
    (∀ k, k ≤ uses → ∃ lu,
      (validateSeq c ts ids (codes, logs) k).1.lookup (normalizeCode c) =
        some { d with uses_remaining := (uses : Int) - (k : Int),
                      last_used := lu }) ∧
    (validate_access_code c (validateSeq c ts ids (codes, logs) uses).1
      (validateSeq c ts ids (codes, logs) uses).2 (ts uses) (ids uses)).1 =
      { valid := false, message := "Access code has no remaining uses" } ∧
    (validateSeq c ts ids (codes, logs) (uses + 1)).1 =
      (validateSeq c ts ids (codes, logs) uses).1 := by
  have hinv := validateSeq_invariant c codes logs ts ids d uses hn hlk hv hu hexp
  refine ⟨?_, fun k hk => (hinv k hk).imp (fun lu h => h.1), ?_, ?_⟩
  · intro k hk
    obtain ⟨lu, hlkk, hkeys, href⟩ := hinv k (le_of_lt hk)
    have hexpk : referenceTime (validateSeq c ts ids (codes, logs) k).1
        (ts k) ≤ d.expires_at := by
      rw [href (ts k)]
      exact hexp k
    have huk : (0 : Int) < (uses : Int) - (k : Int) := by
      have : (k : Int) < (uses : Int) := by exact_mod_cast hk
      omega
    rw [validate_success_step (validateSeq c ts ids (codes, logs) k).2
      (ts k) (ids k) hlkk hv hexpk huk]
  · obtain ⟨lu, hlkk, hkeys, href⟩ := hinv uses le_rfl
    have hexpk : ¬ d.expires_at <
        referenceTime (validateSeq c ts ids (codes, logs) uses).1 (ts uses) := by
      rw [href (ts uses)]
      exact not_lt.mpr (hexp uses)
    have huk : ((uses : Int) - (uses : Int)) ≤ (0 : Int) := by omega
    rw [validate_depleted_step (validateSeq c ts ids (codes, logs) uses).2
      (ts uses) (ids uses) hlkk hv hexpk huk]
  · obtain ⟨lu, hlkk, hkeys, href⟩ := hinv uses le_rfl
    have hexpk : ¬ d.expires_at <
        referenceTime (validateSeq c ts ids (codes, logs) uses).1 (ts uses) := by
      rw [href (ts uses)]
      exact not_lt.mpr (hexp uses)
    have huk : ((uses : Int) - (uses : Int)) ≤ (0 : Int) := by omega
    show ((validate_access_code c (validateSeq c ts ids (codes, logs) uses).1
      (validateSeq c ts ids (codes, logs) uses).2 (ts uses) (ids uses)).2.1) = _
    rw [validate_depleted_step (validateSeq c ts ids (codes, logs) uses).2
      (ts uses) (ids uses) hlkk hv hexpk huk]

/-- Witness for C2 with `wCode` (budget 2): the third validation is
rejected for lack of remaining uses. -/
theorem fresh_code_depletes_after_uses_witness :
    (validate_access_code "ABC123"
      (validateSeq "ABC123" (fun _ => 0) (fun _ => "L1")
        ([("ABC123", wCode)], []) 2).1
      (validateSeq "ABC123" (fun _ => 0) (fun _ => "L1")
        ([("ABC123", wCode)], []) 2).2 0 "L1").1 =
      { valid := false, message := "Access code has no remaining uses" } :=
  (fresh_code_depletes_after_uses "ABC123" [("ABC123", wCode)] []
    (fun _ => 0) (fun _ => "L1") wCode 2 (by decide) (by decide) (by decide)
    (by decide)
    (fun _ => (by decide :
      referenceTime [("ABC123", wCode)] 0 ≤ wCode.expires_at))).2.2.1

end AccessManagement
